import Mathlib

/-!
# Verification of the 1code-linux installer core (`src/bin/cli.ts`)

A shallow embedding of the backup/restore manager and the version
comparator of `src/bin/cli.ts`, together with proofs of the spec's
claims about them.

Strings are modelled as `List Char` (`Str`) so that every operation is
a structurally recursive function that the kernel can evaluate on
concrete inputs; JavaScript's lexicographic string comparison coincides
with the lexicographic order on `List Char` for the ASCII names used
here.
-/

/-- Model of JavaScript strings: a list of characters. -/
abbrev Str := List Char

/-- `s.split(".")` from JavaScript: splits a string at every `'.'`;
splitting the empty string yields `[""]`, matching `"".split(".")`. -/
def splitOnDot (s : Str) : List Str :=
  match s with
  | [] => [[]]
  | c :: rest =>
    let r := splitOnDot rest
    if c = '.' then [] :: r
    else
      match r with
      | [] => [[c]]
      | h :: t => (c :: h) :: t

/-- `p.isPrefixOf s` written out structurally: does `s` start with `p`? -/
def strStartsWith (s p : Str) : Bool :=
  match p, s with
  | [], _ => true
  | _ :: _, [] => false
  | c :: ps, d :: ss => c = d && strStartsWith ss ps

-- ============================================================
-- Version Reconciler (`compareVersions`, cli.ts lines 415-426)
-- ============================================================

/-- `a.replace(/^v/, "")`: strip a single leading lowercase `'v'`. -/
def stripV (s : Str) : Str :=
  match s with
  | 'v' :: rest => rest
  | _ => s

/-- Numeric value of a digit string, as JavaScript's `Number` computes it
for decimal digit sequences. -/
def digitsVal (l : Str) : Nat :=
  l.foldl (fun n c => n * 10 + (c.toNat - '0'.toNat)) 0

/-- JavaScript `Number(seg)` for a version segment: a (possibly empty)
string of decimal digits parses to its value (`Number("") = 0`); any
other segment yields `NaN`, modelled as `none`.  (Exotic numeric
formats such as hexadecimal or exponent notation are outside the
version-segment domain and are also mapped to `none`.) -/
def jsSegNumber (s : Str) : Option Nat :=
  if s.all Char.isDigit then some (digitsVal s) else none

/-- `partsA[i] || 0` from the source: an out-of-range index yields
`undefined` and a non-numeric segment yields `NaN`, and both are falsy,
so both are silently replaced by `0`. -/
def segAt (parts : List (Option Nat)) (i : Nat) : Nat :=
  match parts[i]? with
  | some (some n) => n
  | _ => 0

/-- The `for` loop of `compareVersions`: compare positions `i`,
`i+1`, ... while `fuel` iterations remain. -/
def cmpLoop (partsA partsB : List (Option Nat)) (i : Nat) : Nat → Int
  | 0 => 0
  | fuel + 1 =>
    let numA := segAt partsA i
    let numB := segAt partsB i
    if numA < numB then -1
    else if numA > numB then 1
    else cmpLoop partsA partsB (i + 1) fuel

/-- `compareVersions` (cli.ts lines 415-426): strip a leading `v`, split
on `.`, map each segment through `Number` (the JS consts `partsA` and
`partsB`, inlined here), and compare position by position over
`0 .. max(partsA.length, partsB.length) - 1`. -/
def compareVersions (a b : Str) : Int :=
  cmpLoop ((splitOnDot (stripV a)).map jsSegNumber)
    ((splitOnDot (stripV b)).map jsSegNumber) 0
    (max ((splitOnDot (stripV a)).map jsSegNumber).length
      ((splitOnDot (stripV b)).map jsSegNumber).length)

-- Spec-side definitions (following the spec's words, for the
-- refinement claims about `compareVersions`).

/-- The spec's parse of one segment "as a non-negative integer":
defined for non-empty digit strings, `none` otherwise. -/
def specSegNat (s : Str) : Option Nat :=
  if !s.isEmpty && s.all Char.isDigit then some (digitsVal s) else none

/-- The spec's segment sequence of a version string: strip the optional
`v`, split on `.`, and read each segment as a non-negative integer. -/
def specSegments (s : Str) : List Nat :=
  (splitOnDot (stripV s)).map (fun t => (specSegNat t).getD 0)

/-- The loop of the spec's comparator: positions beyond a list's length
are read as `0`. -/
def specLoop (x y : List Nat) (i : Nat) : Nat → Int
  | 0 => 0
  | fuel + 1 =>
    if x.getD i 0 < y.getD i 0 then -1
    else if y.getD i 0 < x.getD i 0 then 1
    else specLoop x y (i + 1) fuel

/-- The spec's comparator: segment-by-segment comparison, left to
right, over positions `0 .. max(lenA, lenB) - 1`; a missing trailing
segment counts as `0`; `-1` at the first position where the left
segment is smaller, `1` where larger, `0` if all positions agree. -/
def specSegmentCompare (x y : List Nat) : Int :=
  specLoop x y 0 (max x.length y.length)

/-- The segment values `compareVersions` actually compares: each
segment through JavaScript `Number`, with `NaN` coerced to `0` by
`|| 0`. -/
def segVals (s : Str) : List Nat :=
  (splitOnDot (stripV s)).map (fun t => (jsSegNumber t).getD 0)

/-- A version string of the form `[v]N(.N)*`: after stripping the
optional `v`, every dot-separated segment is a non-empty digit
string. -/
def WellFormedVersion (s : Str) : Bool :=
  (splitOnDot (stripV s)).all fun t => !t.isEmpty && t.all Char.isDigit

-- ============================================================
-- Backup Manager: filesystem model
-- ============================================================

/-- `path.join a b`. The path components used by the backup manager
contain no `..` or trailing slashes, so `join` is plain
concatenation with a separator. -/
def pjoin (a b : Str) : Str := a ++ '/' :: b

/-- `homedir()` is environment-provided; the model fixes it to an
arbitrary placeholder, since no claim depends on its value. -/
def homedir : Str := "~".data

/-- `CONFIG.configDir` (cli.ts line 33). -/
def CONFIG_configDir : Str := pjoin homedir ".config/21st-desktop".data

/-- `CONFIG.backupDir` (cli.ts line 34). -/
def CONFIG_backupDir : Str := pjoin homedir ".config/21st-desktop-backups".data

/-- `CONFIG.maxBackups` (cli.ts line 35): the shipped retention limit.
The backup operations below take the retention limit as the explicit
parameter `maxB` (shipped value: this constant), because the spec
quantifies over retention limits `r ≥ 1`. -/
def CONFIG_maxBackups : Nat := 5

/-- `CRITICAL_SETTINGS_FILES` (cli.ts line 39). -/
def CRITICAL_SETTINGS_FILES : List Str := ["data/agents.db".data]

/-- One entry of the backup root directory, as `readdirSync(...,
{ withFileTypes: true })` reports it: a name, whether it is a
directory, and (for the model) the relative paths of the files it
contains. -/
structure DirEntry where
  name : Str
  isDir : Bool
  files : List Str
deriving DecidableEq

/-- The filesystem state the backup manager touches: the settings
directory (`none` when absent, otherwise the relative paths of the
files it holds) and the backup root (`none` when absent, otherwise
its directory entries). -/
structure FS where
  settings : Option (List Str)
  backupRoot : Option (List DirEntry)
deriving DecidableEq

/-- `existsSync` on the paths the model can express: the settings
directory, a file under it, the backup root, an entry under the backup
root, or a file under such an entry. -/
def FS.pathExists (fs : FS) (p : Str) : Bool :=
  (p = CONFIG_configDir && fs.settings.isSome)
  || (match fs.settings with
      | some files => files.any fun f => pjoin CONFIG_configDir f = p
      | none => false)
  || (p = CONFIG_backupDir && fs.backupRoot.isSome)
  || (match fs.backupRoot with
      | some es => es.any fun e =>
          pjoin CONFIG_backupDir e.name = p
          || e.files.any fun f => pjoin (pjoin CONFIG_backupDir e.name) f = p
      | none => false)

/-- Well-formed backup root: directory entries have pairwise distinct
names (as the entries of a real directory do). -/
def FS.wf (fs : FS) : Prop :=
  match fs.backupRoot with
  | some es => (es.map DirEntry.name).Nodup
  | none => True

instance (fs : FS) : Decidable fs.wf := by
  unfold FS.wf
  split <;> infer_instance

-- ============================================================
-- Backup Manager: operations (cli.ts lines 136-243)
-- ============================================================

/-- `BackupResult` (cli.ts lines 136-140). -/
structure BackupResult where
  success : Bool
  path : Option Str := none
  error : Option Str := none
deriving DecidableEq

/-- `RestoreResult` (cli.ts lines 142-145). -/
structure RestoreResult where
  success : Bool
  error : Option Str := none
deriving DecidableEq

/-- Result record of `verifySettings`. -/
structure VerifyResult where
  ok : Bool
  missing : List Str
deriving DecidableEq

/-- `listBackups` (cli.ts lines 148-155): if the backup root does not
exist, return `[]`; otherwise keep the entries that are directories
whose name starts with `"backup-"`, map them to their full paths,
sort ascending (JavaScript `Array.prototype.sort`, lexicographic), and
reverse. -/
def listBackups (fs : FS) : List Str :=
  match fs.backupRoot with
  | none => []
  | some es =>
    ((((es.filter fun e => e.isDir && strStartsWith e.name "backup-".data).map
        fun e => pjoin CONFIG_backupDir e.name).insertionSort (· ≤ ·)).reverse)

/-- `rm -rf backup` for one full backup path: drop the backup-root
entries with that full path.  Modelled as succeeding; the source
tolerates deletion failures (`.nothrow()`), and the spec treats them
as best-effort. -/
def rmBackup (fs : FS) (p : Str) : FS :=
  { fs with
    backupRoot := fs.backupRoot.map fun es =>
      es.filter fun e => pjoin CONFIG_backupDir e.name ≠ p }

/-- `rotateBackups` (cli.ts lines 158-164): delete every backup past
position `maxB - 1` of the newest-first listing, keeping `maxB - 1`
since a new one is about to be created. -/
def rotateBackups (maxB : Nat) (fs : FS) : FS :=
  ((listBackups fs).drop (maxB - 1)).foldl rmBackup fs

/-- `verifyBackup` (cli.ts lines 167-178): every critical file that
exists in the settings directory must also exist under `backupPath`. -/
def verifyBackup (fs : FS) (backupPath : Str) : Bool :=
  CRITICAL_SETTINGS_FILES.all fun file =>
    !(fs.pathExists (pjoin CONFIG_configDir file))
      || fs.pathExists (pjoin backupPath file)

/-- `verifySettings` (cli.ts lines 236-243): collect the critical
files (in their fixed order) that do not exist under the settings
directory; `ok` iff none are missing. -/
def verifySettings (fs : FS) : VerifyResult :=
  let missing := CRITICAL_SETTINGS_FILES.filter fun file =>
    !(fs.pathExists (pjoin CONFIG_configDir file))
  { ok := missing.length = 0, missing := missing }

/-- The name of the backup created from a rendered timestamp:
`backup-<timestamp>` (cli.ts line 190). -/
def backupName (timestamp : Str) : Str := "backup-".data ++ timestamp

/-- Outcome of one external `cp -r` invocation (the bulk-copy
collaborator): its exit code, and the set of files it actually placed
at the destination.  An exit code of `0` does not by itself guarantee
that every file was copied — which is exactly why the source verifies
backups separately. -/
structure CopyEnv where
  exitCode : Nat
  copied : List Str
deriving DecidableEq

/-- `mkdir -p ${backupPath}`: create the backup root if absent and the
named entry if absent (idempotent). -/
def mkdirBackup (fs : FS) (name : Str) : FS :=
  let es := fs.backupRoot.getD []
  if es.any fun e => e.name = name then { fs with backupRoot := some es }
  else { fs with backupRoot := some (es ++ [⟨name, true, []⟩]) }

/-- `cp -r ${configDir}/* ${backupPath}/`: the files the copy
transferred (`env.copied`) appear under the named backup entry. -/
def copyIntoBackup (fs : FS) (name : Str) (env : CopyEnv) : FS :=
  { fs with
    backupRoot := fs.backupRoot.map fun es =>
      es.map fun e =>
        if e.name = name then { e with files := e.files ++ env.copied } else e }

/-- `backupSettings` (cli.ts lines 181-207): nothing to back up when
the settings directory is absent (success, no path); otherwise rotate,
create the timestamped backup directory, copy, and verify, reporting a
copy failure (no path) and a verification failure (with path) as
distinct outcomes. -/
def backupSettings (maxB : Nat) (fs : FS) (timestamp : Str) (env : CopyEnv) :
    FS × BackupResult :=
  if fs.settings.isSome = false then
    (fs, { success := true })
  else
    let fs1 := rotateBackups maxB fs
    let name := backupName timestamp
    let backupPath := pjoin CONFIG_backupDir name
    let fs2 := mkdirBackup fs1 name
    let fs3 := copyIntoBackup fs2 name env
    if env.exitCode ≠ 0 then
      (fs3, { success := false, error := some "Copy command failed".data })
    else if verifyBackup fs3 backupPath = false then
      (fs3, { success := false, path := some backupPath,
              error := some "Backup verification failed".data })
    else
      (fs3, { success := true, path := some backupPath })

/-- `restoreSettings` (cli.ts lines 210-233): fail with no mutation
when `backupPath` does not exist; otherwise create the settings
directory if absent, copy the backup's contents over it (an overlay
copy), and verify the critical files afterwards. -/
def restoreSettings (fs : FS) (backupPath : Str) (env : CopyEnv) :
    FS × RestoreResult :=
  if fs.pathExists backupPath = false then
    (fs, { success := false, error := some "Backup path does not exist".data })
  else
    let fs1 : FS := { fs with settings := some (fs.settings.getD []) }
    let fs2 : FS := { fs1 with settings := fs1.settings.map (· ++ env.copied) }
    if env.exitCode ≠ 0 then
      (fs2, { success := false, error := some "Copy command failed".data })
    else if (verifySettings fs2).ok = false then
      (fs2, { success := false, error := some "Restore verification failed".data })
    else
      (fs2, { success := true })

/-- The files stored under the backup-root entry named `name`
(used to express "copy every entry from the backup" in the round-trip
claim). -/
def FS.backupFiles (fs : FS) (name : Str) : List Str :=
  match (fs.backupRoot.getD []).find? (fun e => e.name = name) with
  | some e => e.files
  | none => []

/-- Run a sequence of `backupSettings` calls, one per
(timestamp, copy-outcome) pair, threading the filesystem state. -/
def runBackups (maxB : Nat) (fs : FS) : List (Str × CopyEnv) → FS
  | [] => fs
  | (ts, env) :: rest => runBackups maxB (backupSettings maxB fs ts env).1 rest

/-- The full paths of the backup entries among a list of directory
entries (the filter-and-map stage of `listBackups`, named for use in
proofs). -/
def bpaths (es : List DirEntry) : List Str :=
  (es.filter fun e => e.isDir && strStartsWith e.name "backup-".data).map
    fun e => pjoin CONFIG_backupDir e.name

-- ============================================================
-- Bridging lemmas for the comparator
-- ============================================================

theorem segAt_map_jsSegNumber (l : List Str) (i : Nat) :
    segAt (l.map jsSegNumber) i
      = (l.map (fun t => (jsSegNumber t).getD 0)).getD i 0 := by
  unfold segAt
  rcases h : l[i]? with _ | s
  · have hlen : l.length ≤ i := by
      simpa using List.getElem?_eq_none_iff.mp h
    rw [List.getElem?_map, h]
    rw [List.getD_eq_default]
    · simp
    · simpa using hlen
  · rw [List.getElem?_map, h]
    have hmap : (List.map (fun t => (jsSegNumber t).getD 0) l)[i]? = some ((jsSegNumber s).getD 0) := by
      rw [List.getElem?_map, h]
      rfl
    rw [List.getD_eq_getElem?_getD, hmap]
    rcases h2 : jsSegNumber s with _ | n <;> simp [h2]

theorem cmpLoop_eq_specLoop (a b : List Str) (i fuel : Nat) :
    cmpLoop (a.map jsSegNumber) (b.map jsSegNumber) i fuel
      = specLoop (a.map fun t => (jsSegNumber t).getD 0)
          (b.map fun t => (jsSegNumber t).getD 0) i fuel := by
  induction fuel generalizing i with
  | zero => rfl
  | succ n ih =>
    simp only [cmpLoop, specLoop, segAt_map_jsSegNumber]
    split
    · rfl
    · split
      · rfl
      · exact ih (i + 1)

/-- `compareVersions` is exactly the spec's comparator applied to the
segment values with `NaN` coerced to `0`. -/
theorem compareVersions_eq_specSegmentCompare (a b : Str) :
    compareVersions a b = specSegmentCompare (segVals a) (segVals b) := by
  unfold compareVersions specSegmentCompare segVals
  rw [cmpLoop_eq_specLoop]
  simp [List.length_map]

theorem segVals_of_wellFormed {s : Str} (h : WellFormedVersion s = true) :
    segVals s = specSegments s := by
  unfold segVals specSegments
  apply List.map_congr_left
  intro t ht
  have h' := (List.all_eq_true.mp h) t ht
  have hne : t.isEmpty = false := by
    rcases h'' : t.isEmpty with _ | _
    · rfl
    · rw [h''] at h'; simp at h'
  have hdig : t.all Char.isDigit = true := by
    rw [hne] at h'; simpa using h'
  unfold jsSegNumber specSegNat
  rw [hdig, hne]
  simp

-- ============================================================
-- Claim theorems: version comparator
-- ============================================================

/-- C2: for version strings of the form `[v]N(.N)*`, `compareVersions`
strips a single leading lowercase `v`, splits on `.`, treats a missing
trailing segment as `0`, and compares segment-by-segment left to right
over positions `0 .. max(lenA, lenB) - 1`, returning `-1` at the first
position where `a`'s segment is smaller, `1` where larger, and `0`
when all positions agree; in particular
`compareVersions "1.2.3" "1.2.3" = 0`,
`compareVersions "1.10.0" "1.9.9" = 1`,
`compareVersions "v2.0" "2.0.0" = 0`, and
`compareVersions "1.2" "1.2.0" = 0`. -/
theorem compareVersions_matches_spec :
    (∀ a b : Str, WellFormedVersion a = true → WellFormedVersion b = true →
        compareVersions a b = specSegmentCompare (specSegments a) (specSegments b))
    ∧ compareVersions "1.2.3".data "1.2.3".data = 0
    ∧ compareVersions "1.10.0".data "1.9.9".data = 1
    ∧ compareVersions "v2.0".data "2.0.0".data = 0
    ∧ compareVersions "1.2".data "1.2.0".data = 0 := by
  refine ⟨fun a b ha hb => ?_, by decide, by decide, by decide, by decide⟩
  rw [compareVersions_eq_specSegmentCompare, segVals_of_wellFormed ha,
    segVals_of_wellFormed hb]

/-- Witness for C2: the quantified part of
`compareVersions_matches_spec` applied at `"1.10.0"` / `"1.9.9"`. -/
theorem compareVersions_matches_spec_witness :
    compareVersions "1.10.0".data "1.9.9".data
      = specSegmentCompare (specSegments "1.10.0".data) (specSegments "1.9.9".data) :=
  compareVersions_matches_spec.1 "1.10.0".data "1.9.9".data (by decide) (by decide)

/-- C3 counterexample: on the non-numeric segment `"x"`,
`compareVersions` does not fail: it returns an ordinary comparison
result, with the segment silently coerced to `0` (so `"x"` compares
below `"1"` and equal to `"0"`). -/
theorem compareVersions_no_failfast_counterexample :
    compareVersions "x".data "1".data = -1
      ∧ compareVersions "x".data "0".data = 0 := by
  constructor <;> decide

/-- C3 amended: `compareVersions` never fails on a non-numeric segment;
every input — malformed segments included — is compared by silently
coercing each non-numeric segment (`Number` yields `NaN`, and
`NaN || 0` selects `0`) to `0`, and the result is always one of
`-1`, `0`, `1`. -/
theorem compareVersions_coerces_nonNumeric_to_zero :
    (∀ a b : Str, compareVersions a b = specSegmentCompare (segVals a) (segVals b))
    ∧ (∀ a b : Str, compareVersions a b = -1 ∨ compareVersions a b = 0
        ∨ compareVersions a b = 1) := by
  refine ⟨compareVersions_eq_specSegmentCompare, fun a b => ?_⟩
  unfold compareVersions
  generalize (max ((splitOnDot (stripV a)).map jsSegNumber).length
      ((splitOnDot (stripV b)).map jsSegNumber).length) = fuel
  generalize (splitOnDot (stripV a)).map jsSegNumber = pa
  generalize (splitOnDot (stripV b)).map jsSegNumber = pb
  generalize 0 = i
  induction fuel generalizing i with
  | zero => simp [cmpLoop]
  | succ n ih =>
    simp only [cmpLoop]
    split
    · simp
    · split
      · simp
      · exact ih (i + 1)

/-- C10: for all strings `a` and `b` — malformed inputs included —
`compareVersions a b = -(compareVersions b a)`, and
`compareVersions a a = 0`, because segment parsing and
zero-substitution are applied identically to both arguments. -/
theorem compareVersions_antisymm_refl :
    (∀ a b : Str, compareVersions a b = -(compareVersions b a))
    ∧ (∀ a : Str, compareVersions a a = 0) := by
  constructor
  · intro a b
    unfold compareVersions
    rw [Nat.max_comm ((splitOnDot (stripV b)).map jsSegNumber).length]
    generalize (max ((splitOnDot (stripV a)).map jsSegNumber).length
        ((splitOnDot (stripV b)).map jsSegNumber).length) = fuel
    generalize (splitOnDot (stripV a)).map jsSegNumber = pa
    generalize (splitOnDot (stripV b)).map jsSegNumber = pb
    generalize 0 = i
    induction fuel generalizing i with
    | zero => simp [cmpLoop]
    | succ n ih =>
      simp only [cmpLoop]
      rcases Nat.lt_trichotomy (segAt pa i) (segAt pb i) with h | h | h
      · rw [if_pos h, if_neg (Nat.lt_asymm h), if_pos h]
      · rw [if_neg (h ▸ Nat.lt_irrefl _), if_neg (h ▸ Nat.lt_irrefl _),
          if_neg (h ▸ Nat.lt_irrefl _), if_neg (h ▸ Nat.lt_irrefl _)]
        exact ih (i + 1)
      · rw [if_neg (Nat.lt_asymm h), if_pos h, if_pos h]
        rfl
  · intro a
    unfold compareVersions
    generalize (max ((splitOnDot (stripV a)).map jsSegNumber).length
        ((splitOnDot (stripV a)).map jsSegNumber).length) = fuel
    generalize (splitOnDot (stripV a)).map jsSegNumber = pa
    generalize 0 = i
    induction fuel generalizing i with
    | zero => rfl
    | succ n ih =>
      simp only [cmpLoop, Nat.lt_irrefl, if_false, gt_iff_lt]
      exact ih (i + 1)

-- ============================================================
-- Claim theorems: verifySettings, verifyBackup, backupSettings,
-- restoreSettings
-- ============================================================

/-- C6: `verifySettings` returns a record whose `missing` list contains
exactly the critical files that do not exist under the settings
directory, in the fixed critical-file order (a sublist of
`CRITICAL_SETTINGS_FILES`), with `ok` true iff `missing` is empty.
It is a pure function of the filesystem state (it returns no new
state), so two calls without intervening mutation are the same term
and yield identical results. -/
theorem verifySettings_spec :
    ∀ fs : FS,
      (verifySettings fs).missing.Sublist CRITICAL_SETTINGS_FILES
      ∧ (∀ f : Str, f ∈ (verifySettings fs).missing ↔
          f ∈ CRITICAL_SETTINGS_FILES
            ∧ fs.pathExists (pjoin CONFIG_configDir f) = false)
      ∧ ((verifySettings fs).ok = true ↔ (verifySettings fs).missing = []) := by
  intro fs
  refine ⟨List.filter_sublist _, fun f => ?_, ?_⟩
  · simp [verifySettings, List.mem_filter]
  · simp [verifySettings, List.length_eq_zero]

/-- C7: `verifyBackupIntegrity` (source name `verifyBackup`) returns
`true` iff every critical file that exists in the source settings
directory also exists under the backup path; critical files absent
from the source impose no requirement.  It is a pure inspection: a
function of the state that returns no new state. -/
theorem verifyBackup_spec :
    ∀ (fs : FS) (p : Str),
      verifyBackup fs p = true ↔
        ∀ f ∈ CRITICAL_SETTINGS_FILES,
          fs.pathExists (pjoin CONFIG_configDir f) = true →
            fs.pathExists (pjoin p f) = true := by
  intro fs p
  unfold verifyBackup
  rw [List.all_eq_true]
  constructor
  · intro h f hf hsrc
    have h' := h f hf
    rw [hsrc] at h'
    simpa using h'
  · intro h f hf
    rcases hsrc : fs.pathExists (pjoin CONFIG_configDir f) with _ | _
    · simp [hsrc]
    · simp [hsrc, h f hf hsrc]

/-- C4: `createBackup` (source name `backupSettings`) classifies its
outcomes as the spec requires: an absent settings directory yields
success with no backup produced and no state change (nothing to back
up is not an error); a copy failure (non-zero exit code) is a failure
with no path; a verification failure is a distinct failure that still
reports the path of the backup attempt. -/
theorem backupSettings_outcomes :
    ∀ (maxB : Nat) (fs : FS) (ts : Str) (env : CopyEnv),
      (fs.settings = none →
        backupSettings maxB fs ts env
          = (fs, { success := true, path := none, error := none }))
      ∧ (fs.settings.isSome = true → env.exitCode ≠ 0 →
          (backupSettings maxB fs ts env).2
            = { success := false, path := none,
                error := some "Copy command failed".data })
      ∧ (fs.settings.isSome = true → env.exitCode = 0 →
          verifyBackup
              (copyIntoBackup (mkdirBackup (rotateBackups maxB fs) (backupName ts))
                (backupName ts) env)
              (pjoin CONFIG_backupDir (backupName ts)) = false →
          (backupSettings maxB fs ts env).2
            = { success := false,
                path := some (pjoin CONFIG_backupDir (backupName ts)),
                error := some "Backup verification failed".data }) := by
  intro maxB fs ts env
  refine ⟨fun h => ?_, fun hs hc => ?_, fun hs hc hv => ?_⟩
  · unfold backupSettings
    rw [h]
    rfl
  · unfold backupSettings
    rw [hs]
    simp only [Bool.true_eq_false, if_false, if_pos hc]
  · unfold backupSettings
    rw [hs]
    simp [hc, hv]

/-- Witness for C4: the three outcome classes at concrete states — an
absent settings directory, a failing copy, and a copy that reports
success without transferring the critical file. -/
theorem backupSettings_outcomes_witness :
    backupSettings 5 ⟨none, none⟩ "t".data ⟨0, []⟩
        = (⟨none, none⟩, { success := true, path := none, error := none })
    ∧ (backupSettings 5 ⟨some [], none⟩ "t".data ⟨1, []⟩).2
        = { success := false, path := none,
            error := some "Copy command failed".data }
    ∧ (backupSettings 5 ⟨some ["data/agents.db".data], none⟩ "t".data ⟨0, []⟩).2
        = { success := false,
            path := some (pjoin CONFIG_backupDir (backupName "t".data)),
            error := some "Backup verification failed".data } :=
  ⟨(backupSettings_outcomes 5 ⟨none, none⟩ "t".data ⟨0, []⟩).1 rfl,
   (backupSettings_outcomes 5 ⟨some [], none⟩ "t".data ⟨1, []⟩).2.1 (by decide)
     (by decide),
   (backupSettings_outcomes 5 ⟨some ["data/agents.db".data], none⟩ "t".data
       ⟨0, []⟩).2.2 (by decide) rfl (by decide)⟩

/-- C5: `restoreBackup` (source name `restoreSettings`) on a backup
path that does not exist fails with the not-found error and performs
no mutation at all: the returned filesystem state is the input state
unchanged. -/
theorem restoreSettings_notFound :
    ∀ (fs : FS) (p : Str) (env : CopyEnv),
      fs.pathExists p = false →
        restoreSettings fs p env
          = (fs, { success := false,
                   error := some "Backup path does not exist".data }) := by
  intro fs p env h
  unfold restoreSettings
  rw [h]
  rfl

/-- Witness for C5: restoring from a path absent in an empty
filesystem fails with not-found and leaves the state unchanged. -/
theorem restoreSettings_notFound_witness :
    restoreSettings ⟨none, none⟩ "nope".data ⟨0, []⟩
      = (⟨none, none⟩,
          { success := false,
            error := some "Backup path does not exist".data }) :=
  restoreSettings_notFound ⟨none, none⟩ "nope".data ⟨0, []⟩ (by decide)

-- ============================================================
-- Helper lemmas: paths and backup listings
-- ============================================================

theorem pjoin_right_inj {a x y : Str} (h : pjoin a x = pjoin a y) : x = y := by
  unfold pjoin at h
  have h' := List.append_cancel_left h
  exact List.cons.inj h' |>.2

theorem strStartsWith_append (p s : Str) : strStartsWith (p ++ s) p = true := by
  induction p with
  | nil => simp [strStartsWith]
  | cons c cs ih => simp [strStartsWith, ih]

theorem listBackups_none {fs : FS} (h : fs.backupRoot = none) :
    listBackups fs = [] := by
  unfold listBackups
  rw [h]

theorem listBackups_some {fs : FS} {es : List DirEntry}
    (h : fs.backupRoot = some es) :
    listBackups fs = ((bpaths es).insertionSort (· ≤ ·)).reverse := by
  unfold listBackups bpaths
  rw [h]

theorem listBackups_perm {fs : FS} {es : List DirEntry}
    (h : fs.backupRoot = some es) : List.Perm (listBackups fs) (bpaths es) := by
  rw [listBackups_some h]
  exact (((bpaths es).insertionSort (· ≤ ·)).reverse_perm).trans
    (List.perm_insertionSort _ _)

theorem listBackups_length {fs : FS} {es : List DirEntry}
    (h : fs.backupRoot = some es) :
    (listBackups fs).length = (bpaths es).length :=
  (listBackups_perm h).length_eq

theorem listBackups_sorted_desc (fs : FS) :
    (listBackups fs).Sorted (fun a b => b ≤ a) := by
  rcases h : fs.backupRoot with _ | es
  · rw [listBackups_none h]
    exact List.sorted_nil
  · rw [listBackups_some h]
    rw [List.Sorted, List.pairwise_reverse]
    exact List.sorted_insertionSort _ _

theorem bpaths_append (es fs' : List DirEntry) :
    bpaths (es ++ fs') = bpaths es ++ bpaths fs' := by
  unfold bpaths
  rw [List.filter_append, List.map_append]

theorem bpaths_nodup {es : List DirEntry}
    (h : (es.map DirEntry.name).Nodup) : (bpaths es).Nodup := by
  unfold bpaths
  have hsub : List.Sublist
      ((es.filter fun e => e.isDir && strStartsWith e.name "backup-".data).map
        DirEntry.name)
      (es.map DirEntry.name) :=
    (List.filter_sublist es).map DirEntry.name
  have hnd : ((es.filter fun e => e.isDir && strStartsWith e.name "backup-".data).map
      DirEntry.name).Nodup := hsub.nodup h
  have : (((es.filter fun e => e.isDir && strStartsWith e.name "backup-".data).map
      DirEntry.name).map (pjoin CONFIG_backupDir)).Nodup := by
    apply hnd.map
    intro x y hxy
    exact pjoin_right_inj hxy
  simpa [List.map_map, Function.comp] using this

/-- Filtering entries by a predicate on their full backup path commutes
with taking backup paths. -/
theorem bpaths_filter_path (es : List DirEntry) (q : Str → Bool) :
    bpaths (es.filter fun e => q (pjoin CONFIG_backupDir e.name))
      = (bpaths es).filter q := by
  unfold bpaths
  rw [List.filter_comm, List.filter_map]
  rfl

-- ============================================================
-- Helper lemmas: rotation
-- ============================================================

theorem rmBackup_settings (fs : FS) (p : Str) :
    (rmBackup fs p).settings = fs.settings := rfl

theorem foldl_rmBackup_settings (D : List Str) (fs : FS) :
    (D.foldl rmBackup fs).settings = fs.settings := by
  induction D generalizing fs with
  | nil => rfl
  | cons p D ih => rw [List.foldl_cons, ih, rmBackup_settings]

theorem foldl_rmBackup_root (D : List Str) (fs : FS) :
    (D.foldl rmBackup fs).backupRoot
      = fs.backupRoot.map fun es =>
          es.filter fun e => pjoin CONFIG_backupDir e.name ∉ D := by
  induction D generalizing fs with
  | nil =>
    rcases h : fs.backupRoot with _ | es <;> rw [List.foldl_nil, h] <;> simp
  | cons p D ih =>
    rw [List.foldl_cons, ih]
    have hrm : (rmBackup fs p).backupRoot
        = fs.backupRoot.map fun es =>
            es.filter fun e => pjoin CONFIG_backupDir e.name ≠ p := rfl
    rw [hrm]
    rcases h : fs.backupRoot with _ | es
    · rfl
    · simp only [Option.map_some', List.filter_filter]
      congr 1
      apply List.filter_congr
      intro e _
      rcases Decidable.em (pjoin CONFIG_backupDir e.name = p) with hp | hp <;>
        rcases Decidable.em (pjoin CONFIG_backupDir e.name ∈ D) with hd | hd <;>
        simp [hp, hd, List.mem_cons]

theorem rotateBackups_settings (maxB : Nat) (fs : FS) :
    (rotateBackups maxB fs).settings = fs.settings :=
  foldl_rmBackup_settings _ _

theorem rotateBackups_root (maxB : Nat) (fs : FS) :
    (rotateBackups maxB fs).backupRoot
      = fs.backupRoot.map fun es =>
          es.filter fun e =>
            pjoin CONFIG_backupDir e.name ∉ (listBackups fs).drop (maxB - 1) :=
  foldl_rmBackup_root _ _

theorem filter_not_mem_append {t d : List Str} (hnd : (t ++ d).Nodup) :
    ((t ++ d).filter fun p => p ∉ d) = t := by
  rw [List.filter_append]
  have hdisj : List.Disjoint t d := ((List.nodup_append.mp hnd).2.2)
  have h1 : (t.filter fun p => p ∉ d) = t := by
    rw [List.filter_eq_self]
    intro a ha
    simpa using fun hmem => hdisj ha hmem
  have h2 : (d.filter fun p => p ∉ d) = [] := by
    rw [List.filter_eq_nil_iff]
    intro a ha
    simp [ha]
  rw [h1, h2, List.append_nil]

theorem filter_not_mem_append_sublist (t d : List Str) :
    List.Sublist ((t ++ d).filter fun p => p ∉ d) t := by
  rw [List.filter_append]
  have h2 : (d.filter fun p => p ∉ d) = [] := by
    rw [List.filter_eq_nil_iff]
    intro a ha
    simp [ha]
  rw [h2, List.append_nil]
  exact List.filter_sublist t

theorem filter_not_mem_drop_eq_take {L : List Str} {k : Nat} (hnd : L.Nodup) :
    (L.filter fun p => p ∉ L.drop k) = L.take k := by
  have h := filter_not_mem_append (t := L.take k) (d := L.drop k)
    (by rw [List.take_append_drop]; exact hnd)
  rw [List.take_append_drop] at h
  exact h

theorem filter_not_mem_drop_length {L : List Str} {k : Nat} :
    (L.filter fun p => p ∉ L.drop k).length ≤ k := by
  have h := filter_not_mem_append_sublist (L.take k) (L.drop k)
  rw [List.take_append_drop] at h
  calc (L.filter fun p => p ∉ L.drop k).length
      ≤ (L.take k).length := h.length_le
    _ ≤ k := by rw [List.length_take]; exact Nat.min_le_left _ _

theorem listBackups_rotate_take (maxB : Nat) (fs : FS) (hwf : fs.wf) :
    listBackups (rotateBackups maxB fs) = (listBackups fs).take (maxB - 1) := by
  rcases h : fs.backupRoot with _ | es
  · have hroot : (rotateBackups maxB fs).backupRoot = none := by
      rw [rotateBackups_root, h]; rfl
    rw [listBackups_none hroot, listBackups_none h]
    simp
  · have hroot : (rotateBackups maxB fs).backupRoot
        = some (es.filter fun e =>
            pjoin CONFIG_backupDir e.name ∉ (listBackups fs).drop (maxB - 1)) := by
      rw [rotateBackups_root, h]; rfl
    have hndL : (listBackups fs).Nodup := by
      have hnames : (es.map DirEntry.name).Nodup := by
        have hw := hwf
        unfold FS.wf at hw
        rw [h] at hw
        exact hw
      exact ((listBackups_perm h).nodup_iff).mpr (bpaths_nodup hnames)
    have hfilter : bpaths (es.filter fun e =>
          pjoin CONFIG_backupDir e.name ∉ (listBackups fs).drop (maxB - 1))
        = (bpaths es).filter fun p => p ∉ (listBackups fs).drop (maxB - 1) :=
      bpaths_filter_path es
        (fun p => decide (p ∉ (listBackups fs).drop (maxB - 1)))
    have hperm : List.Perm
        ((bpaths es).filter fun p => p ∉ (listBackups fs).drop (maxB - 1))
        ((listBackups fs).take (maxB - 1)) := by
      have h1 : List.Perm
          ((listBackups fs).filter fun p => p ∉ (listBackups fs).drop (maxB - 1))
          ((bpaths es).filter fun p => p ∉ (listBackups fs).drop (maxB - 1)) :=
        (listBackups_perm h).filter _
      rw [filter_not_mem_drop_eq_take hndL] at h1
      exact h1.symm
    have hsorted_rev :
        (((listBackups fs).take (maxB - 1)).reverse).Sorted (· ≤ ·) := by
      rw [List.Sorted, List.pairwise_reverse]
      exact List.Pairwise.sublist (List.take_sublist _ _) (listBackups_sorted_desc fs)
    rw [listBackups_some hroot, hfilter]
    have hsort : (((bpaths es).filter fun p =>
          p ∉ (listBackups fs).drop (maxB - 1)).insertionSort (· ≤ ·))
        = ((listBackups fs).take (maxB - 1)).reverse := by
      exact List.eq_of_perm_of_sorted
        ((List.perm_insertionSort _ _).trans
          (hperm.trans ((listBackups fs).take (maxB - 1)).reverse_perm.symm))
        (List.sorted_insertionSort _ _) hsorted_rev
    rw [hsort, List.reverse_reverse]

theorem listBackups_rotate_length (maxB : Nat) (fs : FS) :
    (listBackups (rotateBackups maxB fs)).length ≤ maxB - 1 := by
  rcases h : fs.backupRoot with _ | es
  · have hroot : (rotateBackups maxB fs).backupRoot = none := by
      rw [rotateBackups_root, h]; rfl
    rw [listBackups_none hroot]
    simp
  · have hroot : (rotateBackups maxB fs).backupRoot
        = some (es.filter fun e =>
            pjoin CONFIG_backupDir e.name ∉ (listBackups fs).drop (maxB - 1)) := by
      rw [rotateBackups_root, h]; rfl
    have hfilter : bpaths (es.filter fun e =>
          pjoin CONFIG_backupDir e.name ∉ (listBackups fs).drop (maxB - 1))
        = (bpaths es).filter fun p => p ∉ (listBackups fs).drop (maxB - 1) :=
      bpaths_filter_path es
        (fun p => decide (p ∉ (listBackups fs).drop (maxB - 1)))
    rw [listBackups_length hroot, hfilter]
    have hlen : ((bpaths es).filter fun p =>
          p ∉ (listBackups fs).drop (maxB - 1)).length
        = ((listBackups fs).filter fun p =>
            p ∉ (listBackups fs).drop (maxB - 1)).length :=
      (((listBackups_perm h).filter _).length_eq).symm
    rw [hlen]
    exact filter_not_mem_drop_length

-- ============================================================
-- Helper lemmas: mkdir, copy and backupSettings state
-- ============================================================

theorem mkdirBackup_settings (fs : FS) (nm : Str) :
    (mkdirBackup fs nm).settings = fs.settings := by
  unfold mkdirBackup
  dsimp only
  split <;> rfl

theorem copyIntoBackup_settings (fs : FS) (nm : Str) (env : CopyEnv) :
    (copyIntoBackup fs nm env).settings = fs.settings := rfl

theorem bpaths_map_preserve {g : DirEntry → DirEntry}
    (hname : ∀ e, (g e).name = e.name) (hdir : ∀ e, (g e).isDir = e.isDir)
    (es : List DirEntry) :
    bpaths (es.map g) = bpaths es := by
  induction es with
  | nil => rfl
  | cons e es ih =>
    unfold bpaths
    simp only [List.map_cons, List.filter_cons, hname, hdir]
    by_cases hP : (e.isDir && strStartsWith e.name "backup-".data) = true
    · rw [if_pos hP, if_pos hP]
      simp only [List.map_cons, hname]
      exact congrArg _ ih
    · rw [if_neg hP, if_neg hP]
      exact ih

theorem copyIntoBackup_listBackups (fs : FS) (nm : Str) (env : CopyEnv) :
    listBackups (copyIntoBackup fs nm env) = listBackups fs := by
  rcases h : fs.backupRoot with _ | es
  · have hroot : (copyIntoBackup fs nm env).backupRoot = none := by
      unfold copyIntoBackup
      rw [h]
      rfl
    rw [listBackups_none hroot, listBackups_none h]
  · have hroot : (copyIntoBackup fs nm env).backupRoot
        = some (es.map fun e =>
            if e.name = nm then { e with files := e.files ++ env.copied } else e) := by
      unfold copyIntoBackup
      rw [h]
      rfl
    rw [listBackups_some hroot, listBackups_some h]
    rw [bpaths_map_preserve]
    · intro e
      split <;> rfl
    · intro e
      split <;> rfl

theorem mkdirBackup_fresh_root (fs : FS) (nm : Str)
    (hfresh : ∀ e ∈ fs.backupRoot.getD [], e.name ≠ nm) :
    (mkdirBackup fs nm).backupRoot
      = some (fs.backupRoot.getD [] ++ [⟨nm, true, []⟩]) := by
  unfold mkdirBackup
  rw [if_neg]
  intro hany
  rcases List.any_eq_true.mp hany with ⟨e, he, hename⟩
  exact hfresh e he (by simpa using hename)

theorem backupSettings_fst (maxB : Nat) (fs : FS) (ts : Str) (env : CopyEnv)
    (hs : fs.settings.isSome = true) :
    (backupSettings maxB fs ts env).1
      = copyIntoBackup (mkdirBackup (rotateBackups maxB fs) (backupName ts))
          (backupName ts) env := by
  unfold backupSettings
  rw [if_neg (by simp [hs])]
  dsimp only
  split
  · rfl
  · split <;> rfl

theorem backupSettings_fst_settings (maxB : Nat) (fs : FS) (ts : Str)
    (env : CopyEnv) :
    (backupSettings maxB fs ts env).1.settings = fs.settings := by
  rcases hs : fs.settings.isSome with _ | _
  · unfold backupSettings
    rw [if_pos hs]
  · rw [backupSettings_fst maxB fs ts env hs, copyIntoBackup_settings,
      mkdirBackup_settings, rotateBackups_settings]

theorem bpaths_singleton_length (e : DirEntry) : (bpaths [e]).length ≤ 1 := by
  unfold bpaths
  rw [List.length_map]
  exact (List.filter_sublist _).length_le

theorem backupSettings_step_length (maxB : Nat) (fs : FS) (ts : Str)
    (env : CopyEnv) (hmax : 1 ≤ maxB) (hs : fs.settings.isSome = true) :
    (listBackups (backupSettings maxB fs ts env).1).length ≤ maxB := by
  rw [backupSettings_fst maxB fs ts env hs, copyIntoBackup_listBackups]
  rcases hroot : (rotateBackups maxB fs).backupRoot with _ | es
  · have hroot' : (mkdirBackup (rotateBackups maxB fs) (backupName ts)).backupRoot
        = some ([] ++ [⟨backupName ts, true, []⟩]) := by
      unfold mkdirBackup
      rw [hroot]
      rfl
    rw [listBackups_length hroot']
    calc (bpaths ([] ++ [⟨backupName ts, true, []⟩])).length
        ≤ 1 := bpaths_singleton_length _
      _ ≤ maxB := hmax
  · unfold mkdirBackup
    rw [hroot]
    dsimp only [Option.getD_some]
    split
    · have hroot' : (({ rotateBackups maxB fs with backupRoot := some es } : FS)).backupRoot
          = some es := rfl
      rw [listBackups_length hroot', ← listBackups_length hroot]
      exact le_trans (listBackups_rotate_length maxB fs) (Nat.sub_le maxB 1)
    · have hroot' : (({ rotateBackups maxB fs with
            backupRoot := some (es ++ [⟨backupName ts, true, []⟩]) } : FS)).backupRoot
          = some (es ++ [⟨backupName ts, true, []⟩]) := rfl
      rw [listBackups_length hroot', bpaths_append, List.length_append]
      have h1 : (bpaths es).length ≤ maxB - 1 := by
        rw [← listBackups_length hroot]
        exact listBackups_rotate_length maxB fs
      calc (bpaths es).length + (bpaths [⟨backupName ts, true, []⟩]).length
          ≤ (maxB - 1) + 1 := Nat.add_le_add h1 (bpaths_singleton_length _)
        _ = maxB := Nat.sub_add_cancel hmax

theorem runBackups_length (maxB : Nat) (hmax : 1 ≤ maxB) :
    ∀ (steps : List (Str × CopyEnv)) (fs : FS),
      fs.settings.isSome = true → steps ≠ [] →
      (listBackups (runBackups maxB fs steps)).length ≤ maxB := by
  intro steps
  induction steps with
  | nil =>
    intro fs _ hne
    exact absurd rfl hne
  | cons s rest ih =>
    intro fs hs _
    rcases s with ⟨ts, env⟩
    show (listBackups (runBackups maxB (backupSettings maxB fs ts env).1 rest)).length ≤ maxB
    by_cases hrest : rest = []
    · rw [hrest]
      exact backupSettings_step_length maxB fs ts env hmax hs
    · apply ih
      · rw [backupSettings_fst_settings]
        exact hs
      · exact hrest

-- ============================================================
-- Helper lemmas: adding a fresh newest backup
-- ============================================================

theorem bpaths_single {nm : Str} (hpre : strStartsWith nm "backup-".data = true) :
    bpaths [⟨nm, true, []⟩] = [pjoin CONFIG_backupDir nm] := by
  unfold bpaths
  simp [List.filter_cons, hpre]

theorem listBackups_snoc {fs g : FS} {es : List DirEntry} {nm : Str}
    (hroot : fs.backupRoot = some es)
    (hgroot : g.backupRoot = some (es ++ [⟨nm, true, []⟩]))
    (hpre : strStartsWith nm "backup-".data = true)
    (hgt : ∀ p ∈ listBackups fs, p < pjoin CONFIG_backupDir nm) :
    listBackups g = pjoin CONFIG_backupDir nm :: listBackups fs := by
  have hb : bpaths (es ++ [⟨nm, true, []⟩])
      = bpaths es ++ [pjoin CONFIG_backupDir nm] := by
    rw [bpaths_append, bpaths_single hpre]
  rw [listBackups_some hgroot, hb]
  have hperm : List.Perm (bpaths es ++ [pjoin CONFIG_backupDir nm])
      (pjoin CONFIG_backupDir nm :: listBackups fs) :=
    (List.perm_append_singleton _ _).trans
      (List.Perm.cons _ (listBackups_perm hroot).symm)
  have hsorted :
      ((pjoin CONFIG_backupDir nm :: listBackups fs).reverse).Sorted (· ≤ ·) := by
    rw [List.reverse_cons, List.Sorted, List.pairwise_append]
    refine ⟨?_, List.pairwise_singleton _ _, ?_⟩
    · rw [List.pairwise_reverse]
      exact listBackups_sorted_desc fs
    · intro a ha b hb'
      rw [List.mem_reverse] at ha
      rw [List.mem_singleton] at hb'
      rw [hb']
      exact le_of_lt (hgt a ha)
  have hsort : ((bpaths es ++ [pjoin CONFIG_backupDir nm]).insertionSort (· ≤ ·))
      = (pjoin CONFIG_backupDir nm :: listBackups fs).reverse :=
    List.eq_of_perm_of_sorted
      ((List.perm_insertionSort _ _).trans
        (hperm.trans (List.reverse_perm _).symm))
      (List.sorted_insertionSort _ _) hsorted
  rw [hsort, List.reverse_reverse]

theorem backupSettings_step_newest (maxB : Nat) (fs : FS) (ts : Str)
    (env : CopyEnv) (hwf : fs.wf) (hs : fs.settings.isSome = true)
    (hfresh : ∀ e ∈ fs.backupRoot.getD [], e.name ≠ backupName ts)
    (hgt : ∀ p ∈ listBackups fs, p < pjoin CONFIG_backupDir (backupName ts)) :
    listBackups (backupSettings maxB fs ts env).1
      = pjoin CONFIG_backupDir (backupName ts)
          :: (listBackups fs).take (maxB - 1) := by
  rw [backupSettings_fst maxB fs ts env hs, copyIntoBackup_listBackups]
  have hfresh' : ∀ e ∈ (rotateBackups maxB fs).backupRoot.getD [],
      e.name ≠ backupName ts := by
    intro e he
    rw [rotateBackups_root] at he
    rcases h : fs.backupRoot with _ | es2
    · rw [h] at he
      simp at he
    · rw [h] at he
      simp only [Option.map_some', Option.getD_some] at he
      apply hfresh
      rw [h]
      exact (List.mem_filter.mp he).1
  have hmk := mkdirBackup_fresh_root (rotateBackups maxB fs) (backupName ts) hfresh'
  have hpre : strStartsWith (backupName ts) "backup-".data = true :=
    strStartsWith_append "backup-".data ts
  rcases hroot : (rotateBackups maxB fs).backupRoot with _ | es
  · have hfs : fs.backupRoot = none := by
      have h := rotateBackups_root maxB fs
      rw [hroot] at h
      rcases h2 : fs.backupRoot with _ | es2
      · rfl
      · rw [h2] at h
        simp at h
    have hmk' : (mkdirBackup (rotateBackups maxB fs) (backupName ts)).backupRoot
        = some [⟨backupName ts, true, []⟩] := by
      rw [hmk, hroot]
      rfl
    rw [listBackups_some hmk', bpaths_single hpre, listBackups_none hfs]
    simp [List.insertionSort, List.orderedInsert]
  · have hmk' : (mkdirBackup (rotateBackups maxB fs) (backupName ts)).backupRoot
        = some (es ++ [⟨backupName ts, true, []⟩]) := by
      rw [hmk, hroot]
      rfl
    have hgt' : ∀ p ∈ listBackups (rotateBackups maxB fs),
        p < pjoin CONFIG_backupDir (backupName ts) := by
      intro p hp
      rw [listBackups_rotate_take maxB fs hwf] at hp
      exact hgt p (List.take_subset _ _ hp)
    rw [listBackups_snoc hroot hmk' hpre hgt',
      listBackups_rotate_take maxB fs hwf]

-- ============================================================
-- Claim theorems: listBackups and the retention invariant
-- ============================================================

/-- C8: `listBackups` enumerates exactly the backup-root entries that
are directories whose name matches the `backup-` pattern, mapped to
their full paths; the result is sorted descending by name (newest
first under the timestamp encoding); and a non-existent backup root
yields the empty sequence, not an error. -/
theorem listBackups_spec :
    ∀ fs : FS,
      (fs.backupRoot = none → listBackups fs = [])
      ∧ (listBackups fs).Sorted (fun a b => b ≤ a)
      ∧ (∀ es, fs.backupRoot = some es →
          ∀ p : Str, p ∈ listBackups fs ↔
            ∃ e ∈ es, e.isDir = true
              ∧ strStartsWith e.name "backup-".data = true
              ∧ pjoin CONFIG_backupDir e.name = p) := by
  intro fs
  refine ⟨fun h => listBackups_none h, listBackups_sorted_desc fs,
    fun es h p => ?_⟩
  rw [(listBackups_perm h).mem_iff]
  unfold bpaths
  simp only [List.mem_map, List.mem_filter, Bool.and_eq_true]
  constructor
  · rintro ⟨e, ⟨he, hd, hp⟩, heq⟩
    exact ⟨e, he, hd, hp, heq⟩
  · rintro ⟨e, he, hd, hp, heq⟩
    exact ⟨e, ⟨he, hd, hp⟩, heq⟩

/-- Witness for C8: an absent backup root lists as empty, and a
matching directory entry is listed at its full path. -/
theorem listBackups_spec_witness :
    listBackups ⟨none, none⟩ = []
    ∧ (pjoin CONFIG_backupDir "backup-a".data
        ∈ listBackups ⟨none, some [⟨"backup-a".data, true, []⟩]⟩) :=
  ⟨(listBackups_spec ⟨none, none⟩).1 rfl,
   ((listBackups_spec ⟨none, some [⟨"backup-a".data, true, []⟩]⟩).2.2 _ rfl
       _).mpr
     ⟨⟨"backup-a".data, true, []⟩, by decide, rfl, by decide, rfl⟩⟩

/-- C1: for every retention limit `r ≥ 1` (the shipped configuration
uses 5): rotation deletes exactly the backups past position `r - 1` of
the newest-first ordering, keeping the newest `r - 1`; after any
non-empty sequence of `createBackup` calls on an existing settings
directory, at most `r` backups remain; and a `createBackup` with a
fresh, newest timestamp leaves exactly the new backup followed by the
`r - 1` most recent previous ones — so the surviving backups are
always the most recent ones. -/
theorem backup_retention_invariant :
    ∀ r : Nat, 1 ≤ r →
      CONFIG_maxBackups = 5
      ∧ (∀ fs : FS, fs.wf →
          listBackups (rotateBackups r fs) = (listBackups fs).take (r - 1))
      ∧ (∀ (fs : FS) (steps : List (Str × CopyEnv)),
          fs.settings.isSome = true → steps ≠ [] →
          (listBackups (runBackups r fs steps)).length ≤ r)
      ∧ (∀ (fs : FS) (ts : Str) (env : CopyEnv),
          fs.wf → fs.settings.isSome = true →
          (∀ e ∈ fs.backupRoot.getD [], e.name ≠ backupName ts) →
          (∀ p ∈ listBackups fs, p < pjoin CONFIG_backupDir (backupName ts)) →
          listBackups (backupSettings r fs ts env).1
            = pjoin CONFIG_backupDir (backupName ts)
                :: (listBackups fs).take (r - 1)) := by
  intro r hr
  exact ⟨rfl, fun fs hwf => listBackups_rotate_take r fs hwf,
    fun fs steps hs hne => runBackups_length r hr steps fs hs hne,
    fun fs ts env hwf hs hfresh hgt =>
      backupSettings_step_newest r fs ts env hwf hs hfresh hgt⟩

/-- Witness for C1 at `r = 5`: rotating a one-backup root keeps it;
one `createBackup` call on an existing settings directory leaves at
most 5 backups; and a `createBackup` with a fresh newest name lists
the new backup first, followed by the surviving old one. -/
theorem backup_retention_invariant_witness :
    listBackups (rotateBackups 5 ⟨some [], some [⟨"backup-a".data, true, []⟩]⟩)
        = (listBackups ⟨some [], some [⟨"backup-a".data, true, []⟩]⟩).take 4
    ∧ (listBackups (runBackups 5 ⟨some [], none⟩
          [("t1".data, ⟨0, []⟩)])).length ≤ 5
    ∧ listBackups (backupSettings 5
          ⟨some [], some [⟨"backup-a".data, true, []⟩]⟩ "b".data ⟨0, []⟩).1
        = pjoin CONFIG_backupDir (backupName "b".data)
            :: (listBackups ⟨some [], some [⟨"backup-a".data, true, []⟩]⟩).take 4 :=
  ⟨(backup_retention_invariant 5 (by decide)).2.1 _ (by decide),
   (backup_retention_invariant 5 (by decide)).2.2.1 _ _ (by decide) (by decide),
   (backup_retention_invariant 5 (by decide)).2.2.2 _ _ _ (by decide) (by decide)
     (by decide) (by decide)⟩

-- ============================================================
-- Helper lemmas: existence and backup contents
-- ============================================================

theorem pathExists_settings_file {fs : FS} {files : List Str} {f : Str}
    (h : fs.settings = some files) (hf : f ∈ files) :
    fs.pathExists (pjoin CONFIG_configDir f) = true := by
  unfold FS.pathExists
  rw [h]
  dsimp only
  have hany : (files.any fun g =>
      pjoin CONFIG_configDir g = pjoin CONFIG_configDir f) = true :=
    List.any_eq_true.mpr ⟨f, hf, by simp⟩
  rw [hany]
  simp

theorem pathExists_backup_entry {fs : FS} {es' : List DirEntry} {nm : Str}
    {cf : List Str}
    (hroot : fs.backupRoot = some (es' ++ [⟨nm, true, cf⟩])) :
    fs.pathExists (pjoin CONFIG_backupDir nm) = true := by
  unfold FS.pathExists
  rw [hroot]
  dsimp only
  have hany : ((es' ++ [(⟨nm, true, cf⟩ : DirEntry)]).any fun e =>
      pjoin CONFIG_backupDir e.name = pjoin CONFIG_backupDir nm
      || e.files.any fun f' =>
          pjoin (pjoin CONFIG_backupDir e.name) f' = pjoin CONFIG_backupDir nm) = true :=
    List.any_eq_true.mpr ⟨⟨nm, true, cf⟩,
      List.mem_append_right _ (List.mem_singleton_self _), by simp⟩
  rw [hany]
  simp

theorem pathExists_backup_file {fs : FS} {es' : List DirEntry} {nm f : Str}
    {cf : List Str}
    (hroot : fs.backupRoot = some (es' ++ [⟨nm, true, cf⟩])) (hf : f ∈ cf) :
    fs.pathExists (pjoin (pjoin CONFIG_backupDir nm) f) = true := by
  unfold FS.pathExists
  rw [hroot]
  dsimp only
  have hinner : ((⟨nm, true, cf⟩ : DirEntry).files.any fun f' =>
      pjoin (pjoin CONFIG_backupDir (⟨nm, true, cf⟩ : DirEntry).name) f'
        = pjoin (pjoin CONFIG_backupDir nm) f) = true :=
    List.any_eq_true.mpr ⟨f, hf, by simp⟩
  have hany : ((es' ++ [(⟨nm, true, cf⟩ : DirEntry)]).any fun e =>
      pjoin CONFIG_backupDir e.name = pjoin (pjoin CONFIG_backupDir nm) f
      || e.files.any fun f' =>
          pjoin (pjoin CONFIG_backupDir e.name) f'
            = pjoin (pjoin CONFIG_backupDir nm) f) = true :=
    List.any_eq_true.mpr ⟨⟨nm, true, cf⟩,
      List.mem_append_right _ (List.mem_singleton_self _),
      by rw [Bool.or_eq_true]; right; exact hinner⟩
  rw [hany]
  simp

theorem find?_name_append {es' : List DirEntry} {nm : Str} {x : DirEntry}
    (hx : x.name = nm) (hes : ∀ e ∈ es', e.name ≠ nm) :
    ((es' ++ [x]).find? fun e => e.name = nm) = some x := by
  induction es' with
  | nil => simp [List.find?, hx]
  | cons e es ih =>
    have h1 : (decide (e.name = nm)) = false := by
      simp only [decide_eq_false_iff_not]
      exact hes e (List.mem_cons_self e es)
    rw [List.cons_append, List.find?_cons, h1]
    exact ih fun e' he' => hes e' (List.mem_cons_of_mem e he')

theorem backupFiles_of_entry {fs : FS} {es' : List DirEntry} {nm : Str}
    {cf : List Str}
    (hroot : fs.backupRoot = some (es' ++ [⟨nm, true, cf⟩]))
    (hes : ∀ e ∈ es', e.name ≠ nm) :
    fs.backupFiles nm = cf := by
  unfold FS.backupFiles
  rw [hroot]
  dsimp only [Option.getD_some]
  rw [find?_name_append (x := ⟨nm, true, cf⟩) rfl hes]

theorem verifySettings_ok_of {fs : FS} {files : List Str}
    (h : fs.settings = some files)
    (hcrit : ∀ f ∈ CRITICAL_SETTINGS_FILES, f ∈ files) :
    (verifySettings fs).ok = true := by
  have hnil : (CRITICAL_SETTINGS_FILES.filter fun file =>
      !(fs.pathExists (pjoin CONFIG_configDir file))) = [] := by
    rw [List.filter_eq_nil_iff]
    intro f hf
    rw [pathExists_settings_file h (hcrit f hf)]
    simp
  unfold verifySettings
  dsimp only
  rw [hnil]
  rfl

theorem backup_creates_entry (maxB : Nat) (fs : FS) (ts : Str) (env : CopyEnv)
    (hs : fs.settings.isSome = true)
    (hfresh : ∀ e ∈ fs.backupRoot.getD [], e.name ≠ backupName ts) :
    ∃ es', (backupSettings maxB fs ts env).1.backupRoot
        = some (es' ++ [⟨backupName ts, true, env.copied⟩])
      ∧ (∀ e ∈ es', e.name ≠ backupName ts) := by
  rw [backupSettings_fst maxB fs ts env hs]
  have hfresh' : ∀ e ∈ (rotateBackups maxB fs).backupRoot.getD [],
      e.name ≠ backupName ts := by
    intro e he
    rw [rotateBackups_root] at he
    rcases h : fs.backupRoot with _ | es2
    · rw [h] at he
      simp at he
    · rw [h] at he
      simp only [Option.map_some', Option.getD_some] at he
      apply hfresh
      rw [h]
      exact (List.mem_filter.mp he).1
  have hmk := mkdirBackup_fresh_root (rotateBackups maxB fs) (backupName ts) hfresh'
  refine ⟨(rotateBackups maxB fs).backupRoot.getD [], ?_, hfresh'⟩
  have hcopy : (copyIntoBackup
      (mkdirBackup (rotateBackups maxB fs) (backupName ts)) (backupName ts)
      env).backupRoot
      = ((mkdirBackup (rotateBackups maxB fs) (backupName ts)).backupRoot).map
          fun es => es.map fun e =>
            if e.name = backupName ts
            then { e with files := e.files ++ env.copied } else e := rfl
  rw [hcopy, hmk, Option.map_some', List.map_append]
  have h1 : ((rotateBackups maxB fs).backupRoot.getD []).map
      (fun e => if e.name = backupName ts
        then { e with files := e.files ++ env.copied } else e)
      = (rotateBackups maxB fs).backupRoot.getD [] := by
    have hcon := List.map_congr_left
      (l := (rotateBackups maxB fs).backupRoot.getD [])
      (f := fun e => if e.name = backupName ts
        then { e with files := e.files ++ env.copied } else e) (g := id)
      (fun e he => by simp [hfresh' e he])
    rw [hcon, List.map_id]
  rw [h1]
  have h2 : ([(⟨backupName ts, true, []⟩ : DirEntry)].map
      fun e => if e.name = backupName ts
        then { e with files := e.files ++ env.copied } else e)
      = [⟨backupName ts, true, env.copied⟩] := by
    simp
  rw [h2]

-- ============================================================
-- Claim theorem: round-trip
-- ============================================================

/-- C9: when the settings directory holds all critical files,
`createBackup` with an ideal copy (exit code 0, every settings file
transferred) succeeds and returns the backup path; restoring that
backup onto an empty settings directory — copying every file stored in
the backup — succeeds and leaves `verifySettings().ok = true`. -/
theorem backup_restore_roundtrip :
    ∀ (maxB : Nat) (fs : FS) (ts : Str) (files : List Str),
      fs.settings = some files →
      (∀ f ∈ CRITICAL_SETTINGS_FILES, f ∈ files) →
      (∀ e ∈ fs.backupRoot.getD [], e.name ≠ backupName ts) →
      (backupSettings maxB fs ts ⟨0, files⟩).2.success = true
      ∧ (backupSettings maxB fs ts ⟨0, files⟩).2.path
          = some (pjoin CONFIG_backupDir (backupName ts))
      ∧ (restoreSettings
            { (backupSettings maxB fs ts ⟨0, files⟩).1 with settings := some [] }
            (pjoin CONFIG_backupDir (backupName ts))
            ⟨0, FS.backupFiles
                { (backupSettings maxB fs ts ⟨0, files⟩).1 with
                  settings := some [] } (backupName ts)⟩).2.success = true
      ∧ (verifySettings (restoreSettings
            { (backupSettings maxB fs ts ⟨0, files⟩).1 with settings := some [] }
            (pjoin CONFIG_backupDir (backupName ts))
            ⟨0, FS.backupFiles
                { (backupSettings maxB fs ts ⟨0, files⟩).1 with
                  settings := some [] } (backupName ts)⟩).1).ok = true := by
  intro maxB fs ts files hset hcrit hfresh
  have hs : fs.settings.isSome = true := by rw [hset]; rfl
  obtain ⟨es', hroot1, hes'⟩ :=
    backup_creates_entry maxB fs ts ⟨0, files⟩ hs hfresh
  have hfst := backupSettings_fst maxB fs ts ⟨0, files⟩ hs
  have hvb : verifyBackup (backupSettings maxB fs ts ⟨0, files⟩).1
      (pjoin CONFIG_backupDir (backupName ts)) = true := by
    unfold verifyBackup
    rw [List.all_eq_true]
    intro f hf
    have hpe : (backupSettings maxB fs ts ⟨0, files⟩).1.pathExists
        (pjoin (pjoin CONFIG_backupDir (backupName ts)) f) = true :=
      pathExists_backup_file hroot1 (hcrit f hf)
    rw [hpe]
    simp
  have hvb' : verifyBackup
      (copyIntoBackup (mkdirBackup (rotateBackups maxB fs) (backupName ts))
        (backupName ts) ⟨0, files⟩)
      (pjoin CONFIG_backupDir (backupName ts)) = true := hfst ▸ hvb
  have hres : (backupSettings maxB fs ts ⟨0, files⟩).2
      = { success := true,
          path := some (pjoin CONFIG_backupDir (backupName ts)),
          error := none } := by
    unfold backupSettings
    rw [if_neg (by simp [hs])]
    dsimp only
    rw [if_neg (by simp), if_neg (by simp [hvb'])]
  have hroot2 : ({ (backupSettings maxB fs ts ⟨0, files⟩).1 with
      settings := some ([] : List Str) } : FS).backupRoot
      = some (es' ++ [⟨backupName ts, true, files⟩]) := hroot1
  have hbf : FS.backupFiles
      ({ (backupSettings maxB fs ts ⟨0, files⟩).1 with
        settings := some ([] : List Str) } : FS) (backupName ts) = files :=
    backupFiles_of_entry hroot2 hes'
  have hex : ({ (backupSettings maxB fs ts ⟨0, files⟩).1 with
      settings := some ([] : List Str) } : FS).pathExists
      (pjoin CONFIG_backupDir (backupName ts)) = true :=
    pathExists_backup_entry hroot2
  have hres2 : restoreSettings
      ({ (backupSettings maxB fs ts ⟨0, files⟩).1 with
        settings := some ([] : List Str) } : FS)
      (pjoin CONFIG_backupDir (backupName ts)) ⟨0, files⟩
      = ({ (backupSettings maxB fs ts ⟨0, files⟩).1 with
            settings := some files },
          { success := true, error := none }) := by
    have hok : (verifySettings
        ({ (backupSettings maxB fs ts ⟨0, files⟩).1 with
          settings := some files } : FS)).ok = true :=
      verifySettings_ok_of rfl hcrit
    unfold restoreSettings
    rw [if_neg (by simp [hex])]
    dsimp only
    rw [if_neg (by simp), if_neg (by simp [hok])]
    rfl
  refine ⟨by rw [hres], by rw [hres], ?_, ?_⟩
  · rw [hbf, hres2]
  · rw [hbf, hres2]
    exact verifySettings_ok_of rfl hcrit

/-- Witness for C9: a settings directory holding exactly the critical
file, backed up and restored onto an empty settings directory, passes
verification. -/
theorem backup_restore_roundtrip_witness :
    (backupSettings 5 ⟨some ["data/agents.db".data], none⟩ "t".data
        ⟨0, ["data/agents.db".data]⟩).2.success = true
    ∧ (backupSettings 5 ⟨some ["data/agents.db".data], none⟩ "t".data
        ⟨0, ["data/agents.db".data]⟩).2.path
        = some (pjoin CONFIG_backupDir (backupName "t".data))
    ∧ (restoreSettings
          { (backupSettings 5 ⟨some ["data/agents.db".data], none⟩ "t".data
              ⟨0, ["data/agents.db".data]⟩).1 with settings := some [] }
          (pjoin CONFIG_backupDir (backupName "t".data))
          ⟨0, FS.backupFiles
              { (backupSettings 5 ⟨some ["data/agents.db".data], none⟩ "t".data
                  ⟨0, ["data/agents.db".data]⟩).1 with
                settings := some [] } (backupName "t".data)⟩).2.success = true
    ∧ (verifySettings (restoreSettings
          { (backupSettings 5 ⟨some ["data/agents.db".data], none⟩ "t".data
              ⟨0, ["data/agents.db".data]⟩).1 with settings := some [] }
          (pjoin CONFIG_backupDir (backupName "t".data))
          ⟨0, FS.backupFiles
              { (backupSettings 5 ⟨some ["data/agents.db".data], none⟩ "t".data
                  ⟨0, ["data/agents.db".data]⟩).1 with
                settings := some [] } (backupName "t".data)⟩).1).ok = true :=
  backup_restore_roundtrip 5 ⟨some ["data/agents.db".data], none⟩ "t".data
    ["data/agents.db".data] rfl (by decide) (by decide)
